import Mathlib

/-
Verification of the MCTS node core (src/mcts/node.h, src/mcts/node.cc):
the 16-bit policy prior codec, the per-node visit accounting algebra,
terminal reversal, the visited-node iterator, and the re-rooting and
child-release protocol.  Floating point fields (float, double) are
embedded as rationals; machine counters (uint32_t) as naturals.  A
floating point division with zero divisor (IEEE 0/0, a NaN result) is
embedded as the none case of an Option result.
-/

set_option autoImplicit false

namespace Lc0

/-! Policy prior codec, Edge::SetP and Edge::GetP (node.cc:153-168).
The codec works on the raw IEEE-754 binary32 bit pattern of the prior.
We embed a nonnegative float as its bit pattern, a natural number below
2^31 (sign bit clear), and give its real value as a rational. -/

/-- Scaled significand of a nonnegative IEEE-754 binary32 bit pattern:
for pattern x with biased exponent e = x / 2^23 and mantissa m = x % 2^23,
the represented value is floatSig x / 2^149 (subnormals for e = 0,
normals with the implicit leading bit otherwise). -/
def floatSig (x : ℕ) : ℕ :=
  if x / 2 ^ 23 = 0 then x % 2 ^ 23
  else (2 ^ 23 + x % 2 ^ 23) * 2 ^ (x / 2 ^ 23 - 1)

/-- Value of a nonnegative IEEE-754 binary32 bit pattern as a rational. -/
def floatValBits (x : ℕ) : ℚ := (floatSig x : ℚ) / 2 ^ 149

/-- Edge::SetP (node.cc:153-160), acting on the bit pattern of the input
float: reinterpret as int32, add (1 << 11) - (3 << 28), output 0 when
negative, otherwise the low 16 bits of the arithmetic right shift by 12. -/
def setP (bits : ℕ) : ℕ :=
  let tmp : ℤ := (bits : ℤ) + ((2 ^ 11 : ℤ) - 3 * 2 ^ 28)
  if tmp < 0 then 0 else (tmp.toNat / 2 ^ 12) % 2 ^ 16

/-- Edge::GetP (node.cc:162-168): reshift the 16-bit code into place and
set the two assumed-on exponent bits; returns the bit pattern of the
decoded float. -/
def getP (p : ℕ) : ℕ := (p <<< 12) ||| (3 <<< 28)

/-! Numeric visit state shared by Node and LowNode (node.h fields
wl_, d_, m_, n_, n_in_flight_). -/

/-- Numeric fields of a Node: running means wl, d, m, completed visit
count n and in-flight (virtual loss) count nif. -/
structure NodeStats where
  wl : ℚ
  d : ℚ
  m : ℚ
  n : ℕ
  nif : ℕ
  deriving DecidableEq, Repr

/-- Node::FinalizeScoreUpdate (node.cc:374-385): the three running means
are updated in source order (each reads n before it is incremented),
then n is incremented by multivisit and the virtual loss removed
(uint32 subtraction; the source asserts n_in_flight >= multivisit). -/
def nodeFinalizeScoreUpdate (s : NodeStats) (v dv mv : ℚ) (k : ℕ) : NodeStats :=
  let s1 := { s with wl := s.wl + k * (v - s.wl) / ((s.n : ℚ) + k) }
  let s2 := { s1 with d := s1.d + k * (dv - s1.d) / ((s1.n : ℚ) + k) }
  let s3 := { s2 with m := s2.m + k * (mv - s2.m) / ((s2.n : ℚ) + k) }
  let s4 := { s3 with n := s3.n + k }
  { s4 with nif := s4.nif - k }

/-- Node::TryStartScoreUpdate (node.cc:345-349): refuse when n == 0 and
n_in_flight > 0, otherwise increment n_in_flight and accept. -/
def tryStartScoreUpdate (s : NodeStats) : Bool × NodeStats :=
  if s.n = 0 ∧ 0 < s.nif then (false, s)
  else (true, { s with nif := s.nif + 1 })

/-! Terminal status and game results. -/

/-- Terminal type enumeration exactly as declared at node.h:156:
enum class Terminal : uint8_t with the three enumerators NonTerminal,
EndOfGame, Tablebase.  (node.cc additionally references a TwoFold
enumerator that this declaration does not contain.) -/
inductive Terminal where
  | nonTerminal
  | endOfGame
  | tablebase
  deriving DecidableEq, Repr

/-- Modelled from the spec: GameResult, the three-valued game outcome
BLACK_WON / DRAW / WHITE_WON; the type itself lives outside src/. -/
inductive GameResult where
  | blackWon
  | draw
  | whiteWon
  deriving DecidableEq, Repr

/-- Modelled from the spec: GameResult negation swaps the winners and
fixes DRAW; the operator itself lives outside src/. -/
def GameResult.neg : GameResult → GameResult
  | GameResult.blackWon => GameResult.whiteWon
  | GameResult.draw => GameResult.draw
  | GameResult.whiteWon => GameResult.blackWon

/-! LowNode state and LowNode::MakeNotTerminal. -/

/-- Fields of a LowNode (node.h:299-344): running means, visit counts,
edge count, terminal type and the two result bounds. -/
structure LowState where
  wl : ℚ
  d : ℚ
  m : ℚ
  n : ℕ
  nif : ℕ
  numEdges : ℕ
  terminalType : Terminal
  lowerBound : GameResult
  upperBound : GameResult
  deriving DecidableEq, Repr

/-- LowNode::FinalizeScoreUpdate (node.cc:356-365): same running-mean
update as the Node version, increments n, does not touch n_in_flight. -/
def lowFinalizeScoreUpdate (s : LowState) (v dv mv : ℚ) (k : ℕ) : LowState :=
  let s1 := { s with wl := s.wl + k * (v - s.wl) / ((s.n : ℚ) + k) }
  let s2 := { s1 with d := s1.d + k * (dv - s1.d) / ((s1.n : ℚ) + k) }
  let s3 := { s2 with m := s2.m + k * (mv - s2.m) / ((s2.n : ℚ) + k) }
  { s3 with n := s3.n + k }

/-- What LowNode::MakeNotTerminal reads from one child of the incoming
Node through the EdgeAndNode getters GetN, GetWL, GetD, GetM
(node.cc:268-279): edges without a materialized Node read as n = 0 and
are skipped by the n > 0 test, so a list of the materialized children
is a faithful view of the iteration. -/
structure ChildView where
  n : ℕ
  wl : ℚ
  d : ℚ
  m : ℚ
  deriving DecidableEq, Repr

/-- Sum of n over the visited (n > 0) children, as accumulated by the
loop at node.cc:269-279. -/
def accN (cs : List ChildView) : ℕ :=
  ((cs.filter fun c => 0 < c.n).map fun c => c.n).sum

/-- Sum of wl * n over the visited children (node.cc:275). -/
def accWL (cs : List ChildView) : ℚ :=
  ((cs.filter fun c => 0 < c.n).map fun c => c.wl * (c.n : ℚ)).sum

/-- Sum of d * n over the visited children (node.cc:276). -/
def accD (cs : List ChildView) : ℚ :=
  ((cs.filter fun c => 0 < c.n).map fun c => c.d * (c.n : ℚ)).sum

/-- Sum of m * n over the visited children (node.cc:277). -/
def accM (cs : List ChildView) : ℚ :=
  ((cs.filter fun c => 0 < c.n).map fun c => c.m * (c.n : ℚ)).sum

/-- LowNode::MakeNotTerminal (node.cc:255-286).  The argument children
lists the materialized children of the incoming Node; the edge count of
the incoming Node equals this LowState numEdges field since the incoming
Node holds this very low node.  When the node is not terminal the call
returns unchanged.  Otherwise terminal type, bounds and stats are reset,
and if the incoming node has edges the visit-weighted child sums are
divided by the accumulated n (node.cc:282-284).  That division is
performed unguarded in the source; when the accumulated n is zero it is
a float 0/0 whose IEEE result is NaN, embedded here as none. -/
def lowMakeNotTerminal (s : LowState) (children : List ChildView) : Option LowState :=
  if s.terminalType = Terminal.nonTerminal then some s
  else
    let s1 : LowState :=
      { s with terminalType := Terminal.nonTerminal
               lowerBound := GameResult.blackWon
               upperBound := GameResult.whiteWon
               n := 0, wl := 0, d := 0, m := 0 }
    if 0 < s.numEdges then
      let nSum := accN children
      if nSum = 0 then none
      else
        some { s1 with n := nSum
                       wl := accWL children / (nSum : ℚ)
                       d := accD children / (nSum : ℚ)
                       m := accM children / (nSum : ℚ) }
    else some s1

/-! VisitedNode_Iterator (node.h:777-825).  The iterator walks the
sibling chain of materialized children, embedded as a list of the
visit counters it inspects. -/

/-- Visit counters of one materialized child as read by the iterator:
GetN and GetNInFlight. -/
structure VNode where
  n : ℕ
  nif : ℕ
  deriving DecidableEq, Repr

/-- One application of VisitedNode_Iterator::operator++ (node.h:804-817)
given the chain after the current position: step to the next sibling; a
node with n == 0 and n_in_flight == 0 ends the iteration; a node with
n == 0 (and in flight visits) is stepped over; otherwise the node is the
new current position.  Returns the new current node and the chain after
it, or none when the iteration ended. -/
def vAdvance : List VNode → Option (VNode × List VNode)
  | [] => none
  | c :: rest =>
    if c.n = 0 ∧ c.nif = 0 then none
    else if c.n = 0 then vAdvance rest
    else some (c, rest)

/-- Nodes yielded by repeatedly applying operator++ over the chain rest
lying after the current position, collecting each node the iterator
stops at.  Structurally equal to iterating vAdvance (the bridge lemma
vRest_eq_vAdvance below); written as one pass so that it is structural
recursion. -/
def vRest : List VNode → List VNode
  | [] => []
  | c :: rest =>
    if c.n = 0 ∧ c.nif = 0 then []
    else if c.n = 0 then vRest rest
    else c :: vRest rest

/-- Full sequence yielded by VisitedNode_Iterator over a child chain.
The range constructor (node.h:784-789) positions on the first child and
applies operator++ once when that child has n == 0 (its in-flight count
is not consulted); every later step is operator++ after the yielded
node. -/
def visitedNodes : List VNode → List VNode
  | [] => []
  | c :: rest => if c.n = 0 then vRest rest else c :: vRest rest

/-! Tree-shaped fragment of the two-tier Node / LowNode graph, for the
re-rooting protocol (NodeTree::MakeMove, LowNode::ReleaseChildrenExceptOne).
Transpositions (a LowNode shared by several Nodes) play no role in these
claims, so the graph fragment is a rose tree: each Node carries its own
stats and optionally its LowNode (flag hasLow), whose children are the
materialized child Nodes. -/

/-- Scalar fields of one Node together with its optional LowNode
(node.h:532-580): own stats, terminal type, bounds, index in the parent
edge array, and, when hasLow is true, the LowNode state.  When hasLow is
false the low field is the default-constructed placeholder and the node
has no children. -/
structure NodeData where
  stats : NodeStats
  terminalType : Terminal
  lowerBound : GameResult
  upperBound : GameResult
  index : ℕ
  hasLow : Bool
  low : LowState
  deriving DecidableEq, Repr

/-- A Node with its subtree: the scalar data plus the materialized
children of its LowNode (the child_ list, sorted by ascending index). -/
inductive GNode where
  | mk (data : NodeData) (children : List GNode)

/-- Scalar data of the node. -/
def GNode.data : GNode → NodeData
  | GNode.mk d _ => d

/-- Materialized children of the node. -/
def GNode.children : GNode → List GNode
  | GNode.mk _ cs => cs

mutual

/-- Number of Nodes in the subtree rooted at a node. -/
def GNode.count : GNode → ℕ
  | GNode.mk _ cs => 1 + countChain cs

/-- Number of Nodes in a chain of sibling subtrees. -/
def countChain : List GNode → ℕ
  | [] => 0
  | c :: cs => GNode.count c + countChain cs

end

/-- Default-constructed LowState (the LowNode default constructor,
node.h:158-162, with field initializers at node.h:299-344). -/
def defaultLowState : LowState :=
  { wl := 0, d := 0, m := 0, n := 0, nif := 0, numEdges := 0
    terminalType := Terminal.nonTerminal
    lowerBound := GameResult.blackWon
    upperBound := GameResult.whiteWon }

/-- A freshly spawned Node(parent, index) (node.h:365-370): zero stats,
non-terminal, loosest bounds, no low node, no children. -/
def freshNode (idx : ℕ) : GNode :=
  GNode.mk
    { stats := { wl := 0, d := 0, m := 0, n := 0, nif := 0 }
      terminalType := Terminal.nonTerminal
      lowerBound := GameResult.blackWon
      upperBound := GameResult.whiteWon
      index := idx
      hasLow := false
      low := defaultLowState } []

/-- Edge_Iterator::GetOrSpawnNode (node.h:704-731) restricted to the
child list: return the list unchanged when a node with the wanted index
exists, otherwise splice a fresh node in, keeping the ascending index
order. -/
def getOrSpawnChild : List GNode → ℕ → List GNode
  | [], i => [freshNode i]
  | c :: cs, i =>
    if c.data.index < i then c :: getOrSpawnChild cs i
    else if c.data.index = i then c :: cs
    else freshNode i :: c :: cs

/-- NodeGarbageCollector::AddToGcQueue (node.cc:61-65): appends a
detached sibling chain to the queue; an empty handle is ignored. -/
def addToGcQueue (q : List (List GNode)) (chain : List GNode) : List (List GNode) :=
  if chain.isEmpty then q else q ++ [chain]

/-- Locate the child whose index field equals i: the chain before it,
the child itself, and the chain after it. -/
def splitAtIndex : List GNode → ℕ → Option (List GNode × GNode × List GNode)
  | [], _ => none
  | c :: cs, i =>
    if c.data.index = i then some ([], c, cs)
    else
      match splitAtIndex cs i with
      | none => none
      | some (pre, t, suf) => some (c :: pre, t, suf)

/-- LowNode::ReleaseChildrenExceptOne (node.cc:415-433).  The node to
save is identified by its index in the parent edge array (the source
compares the pointer; child indices are unique within a chain).  When it
is found, the chain after it is queued first, then the chain from the
list head (the part before the saved node), and the saved node becomes
the only child.  When it is null or not found, the whole chain is queued
and the child list becomes empty.  Returns the new child list and the
queue entries added. -/
def releaseChildrenExceptOne (children : List GNode) (save : Option ℕ) :
    List GNode × List (List GNode) :=
  match save with
  | none => ([], addToGcQueue [] children)
  | some i =>
    match splitAtIndex children i with
    | none => ([], addToGcQueue [] children)
    | some (pre, t, suf) => ([t], addToGcQueue (addToGcQueue [] suf) pre)

/-- View of one materialized child through the EdgeAndNode getters used
by LowNode::MakeNotTerminal. -/
def gnodeChildView (c : GNode) : ChildView :=
  { n := c.data.stats.n, wl := c.data.stats.wl, d := c.data.stats.d, m := c.data.stats.m }

/-- Node::MakeNotTerminal with also_low_node = true (node.cc:312-338), as
called from NodeTree::MakeMove.  Returns unchanged when neither the node
nor its attached low node is terminal.  Otherwise the node becomes
non-terminal; with a low node attached, the low node is first reverted
through LowNode::MakeNotTerminal (using this node as the incoming node),
then the node takes the negated bounds, n, negated wl, d and m + 1 from
the low node; without one, bounds and stats reset to zero.  The none
case propagates the NaN division of LowNode::MakeNotTerminal. -/
def gnodeMakeNotTerminal (nd : GNode) : Option GNode :=
  if nd.data.terminalType = Terminal.nonTerminal ∧
      (nd.data.hasLow = false ∨ nd.data.low.terminalType = Terminal.nonTerminal) then
    some nd
  else
    let d1 := { nd.data with terminalType := Terminal.nonTerminal }
    if d1.hasLow then
      match lowMakeNotTerminal d1.low (nd.children.map gnodeChildView) with
      | none => none
      | some low1 =>
        some (GNode.mk
          { d1 with low := low1
                    lowerBound := low1.upperBound.neg
                    upperBound := low1.lowerBound.neg
                    stats := { wl := -low1.wl, d := low1.d, m := low1.m + 1
                               n := low1.n, nif := nd.data.stats.nif } }
          nd.children)
    else
      some (GNode.mk
        { d1 with lowerBound := GameResult.blackWon
                  upperBound := GameResult.whiteWon
                  stats := { wl := 0, d := 0, m := 0, n := 0, nif := nd.data.stats.nif } }
        nd.children)

/-- NodeTree::MakeMove (node.cc:566-587) for a move that matches the
edge at index i of the current head: GetOrSpawnNode materializes the
child if needed, a terminal new head is made non-terminal, all other
children are released to the garbage collection queue, and the saved
child becomes the new current head.  Returns the new current head, the
old head (now with a single child) and the queue entries handed to the
collector; none propagates the NaN case of MakeNotTerminal (the two
remaining none branches are unreachable because GetOrSpawnNode
guarantees a child at index i). -/
def makeMove (head : GNode) (i : ℕ) : Option (GNode × GNode × List (List GNode)) :=
  let cs1 := getOrSpawnChild head.children i
  match splitAtIndex cs1 i with
  | none => none
  | some (pre, t, suf) =>
    match (if t.data.terminalType = Terminal.nonTerminal then some t
           else gnodeMakeNotTerminal t) with
    | none => none
    | some t1 =>
      let rel := releaseChildrenExceptOne (pre ++ t1 :: suf) (some i)
      match rel.1 with
      | [newHead] => some (newHead, GNode.mk head.data rel.1, rel.2)
      | _ => none

/-! Concrete example values used by witnesses and counterexamples. -/

/-- Head node data for the re-rooting examples: an evaluated head (low
node attached) whose scalar fields are otherwise plain. -/
def exHeadData : NodeData :=
  { stats := { wl := 1 / 4, d := 1 / 8, m := 30, n := 6, nif := 0 }
    terminalType := Terminal.nonTerminal
    lowerBound := GameResult.blackWon
    upperBound := GameResult.whiteWon
    index := 0
    hasLow := true
    low := { wl := -(1 / 4), d := 1 / 8, m := 29, n := 6, nif := 0, numEdges := 3
             terminalType := Terminal.nonTerminal
             lowerBound := GameResult.blackWon
             upperBound := GameResult.whiteWon } }

/-- Chosen child data for the C7 witness: non-terminal, at index 1. -/
def exChildData : NodeData :=
  { stats := { wl := 2 / 5, d := 1 / 5, m := 10, n := 3, nif := 0 }
    terminalType := Terminal.nonTerminal
    lowerBound := GameResult.blackWon
    upperBound := GameResult.whiteWon
    index := 1
    hasLow := true
    low := { wl := -(2 / 5), d := 1 / 5, m := 9, n := 3, nif := 0, numEdges := 2
             terminalType := Terminal.nonTerminal
             lowerBound := GameResult.blackWon
             upperBound := GameResult.whiteWon } }

/-- A terminal child with an attached non-terminal low node, used by the
C7 counterexample: its own stats record a win (wl = 1 over n = 1) while
its low node aggregate has wl = 3/10 over 5 visits. -/
def termChild : GNode :=
  GNode.mk
    { stats := { wl := 1, d := 0, m := 3, n := 1, nif := 0 }
      terminalType := Terminal.endOfGame
      lowerBound := GameResult.whiteWon
      upperBound := GameResult.whiteWon
      index := 0
      hasLow := true
      low := { wl := 3 / 10, d := 1 / 5, m := 7, n := 5, nif := 0, numEdges := 4
               terminalType := Terminal.nonTerminal
               lowerBound := GameResult.blackWon
               upperBound := GameResult.whiteWon } } []

/-! Theorems. -/

/-- C1: Node::FinalizeScoreUpdate updates the running means as
W += k(v - W)/(N + k), in the same form for D and M, then increments N
by k and decrements n_in_flight by k under the precondition
n_in_flight >= k; LowNode::FinalizeScoreUpdate performs the same mean
updates and N increment and leaves n_in_flight unchanged. -/
theorem finalizeScoreUpdate_spec (s : NodeStats) (t : LowState) (v dv mv : ℚ) (k : ℕ)
    (_hk : 1 ≤ k) (hf : k ≤ s.nif) :
    nodeFinalizeScoreUpdate s v dv mv k =
      { wl := s.wl + k * (v - s.wl) / ((s.n : ℚ) + k)
        d := s.d + k * (dv - s.d) / ((s.n : ℚ) + k)
        m := s.m + k * (mv - s.m) / ((s.n : ℚ) + k)
        n := s.n + k
        nif := s.nif - k } ∧
    (nodeFinalizeScoreUpdate s v dv mv k).nif + k = s.nif ∧
    lowFinalizeScoreUpdate t v dv mv k =
      { t with wl := t.wl + k * (v - t.wl) / ((t.n : ℚ) + k)
               d := t.d + k * (dv - t.d) / ((t.n : ℚ) + k)
               m := t.m + k * (mv - t.m) / ((t.n : ℚ) + k)
               n := t.n + k } := by
  refine ⟨rfl, ?_, rfl⟩
  show s.nif - k + k = s.nif
  omega

/-- Witness for C1 at a concrete input: one in-flight visit finalized
with v = 0.3, d = 0.1, m = 20, k = 1 on a fresh node. -/
theorem finalizeScoreUpdate_spec_witness :
    nodeFinalizeScoreUpdate { wl := 0, d := 0, m := 0, n := 0, nif := 1 }
        (3 / 10) (1 / 10) 20 1 =
      { wl := 3 / 10, d := 1 / 10, m := 20, n := 1, nif := 0 } := by
  have h := finalizeScoreUpdate_spec { wl := 0, d := 0, m := 0, n := 0, nif := 1 }
    defaultLowState (3 / 10) (1 / 10) 20 1 (by decide) (by decide)
  rw [h.1]
  simp only [NodeStats.mk.injEq]
  norm_num

/-- C2: Node::TryStartScoreUpdate returns false exactly when n == 0 and
n_in_flight > 0, leaving the node unchanged; otherwise it increments
n_in_flight by one and returns true.  Scenario: on a fresh node the
first call accepts, a second call before any finalize refuses without
change, and after FinalizeScoreUpdate(0.3, 0.1, 20, 1) a retry accepts,
leaving n = 1, n_in_flight = 1, wl = 0.3. -/
theorem tryStartScoreUpdate_spec :
    (∀ s : NodeStats, ((tryStartScoreUpdate s).1 = false ↔ s.n = 0 ∧ 0 < s.nif)) ∧
    (∀ s : NodeStats, (tryStartScoreUpdate s).1 = false → (tryStartScoreUpdate s).2 = s) ∧
    (∀ s : NodeStats, (tryStartScoreUpdate s).1 = true →
      (tryStartScoreUpdate s).2 = { s with nif := s.nif + 1 }) ∧
    (tryStartScoreUpdate { wl := 0, d := 0, m := 0, n := 0, nif := 0 } =
      (true, { wl := 0, d := 0, m := 0, n := 0, nif := 1 }) ∧
     tryStartScoreUpdate { wl := 0, d := 0, m := 0, n := 0, nif := 1 } =
      (false, { wl := 0, d := 0, m := 0, n := 0, nif := 1 }) ∧
     nodeFinalizeScoreUpdate { wl := 0, d := 0, m := 0, n := 0, nif := 1 }
        (3 / 10) (1 / 10) 20 1 =
      { wl := 3 / 10, d := 1 / 10, m := 20, n := 1, nif := 0 } ∧
     tryStartScoreUpdate { wl := 3 / 10, d := 1 / 10, m := 20, n := 1, nif := 0 } =
      (true, { wl := 3 / 10, d := 1 / 10, m := 20, n := 1, nif := 1 })) := by
  refine ⟨?_, ?_, ?_, ?_, ?_, ?_, ?_⟩
  · intro s
    by_cases h : s.n = 0 ∧ 0 < s.nif
    · simp [tryStartScoreUpdate, h]
    · simp [tryStartScoreUpdate, h]
  · intro s hfalse
    by_cases h : s.n = 0 ∧ 0 < s.nif
    · simp [tryStartScoreUpdate, h]
    · simp [tryStartScoreUpdate, h] at hfalse
  · intro s htrue
    by_cases h : s.n = 0 ∧ 0 < s.nif
    · simp [tryStartScoreUpdate, h] at htrue
    · simp [tryStartScoreUpdate, h]
  · simp [tryStartScoreUpdate]
  · simp [tryStartScoreUpdate]
  · simp only [nodeFinalizeScoreUpdate, NodeStats.mk.injEq]
    norm_num
  · simp [tryStartScoreUpdate]

/-- Witness for C2: the refusing branch at a concrete state with n = 0
and two in-flight visits. -/
theorem tryStartScoreUpdate_spec_witness :
    (tryStartScoreUpdate { wl := 0, d := 0, m := 0, n := 0, nif := 2 }).1 = false ∧
    (tryStartScoreUpdate { wl := 0, d := 0, m := 0, n := 0, nif := 2 }).2 =
      { wl := 0, d := 0, m := 0, n := 0, nif := 2 } :=
  ⟨(tryStartScoreUpdate_spec.1 _).mpr ⟨rfl, by decide⟩,
   tryStartScoreUpdate_spec.2.1 _ ((tryStartScoreUpdate_spec.1 _).mpr ⟨rfl, by decide⟩)⟩

/-- C3 counterexample: a terminal LowNode with one edge and no visited
children.  The claim predicts the stats are left at zero; the source
instead divides the zero sums by the zero visit count (node.cc:282-284),
an IEEE 0/0 whose result is NaN (embedded as none), so the result is not
the zero-stats state. -/
theorem lowMakeNotTerminal_counterexample :
    lowMakeNotTerminal
        { wl := 0, d := 1, m := 5, n := 0, nif := 0, numEdges := 1
          terminalType := Terminal.endOfGame
          lowerBound := GameResult.draw, upperBound := GameResult.draw } [] = none ∧
    lowMakeNotTerminal
        { wl := 0, d := 1, m := 5, n := 0, nif := 0, numEdges := 1
          terminalType := Terminal.endOfGame
          lowerBound := GameResult.draw, upperBound := GameResult.draw } [] ≠
      some { wl := 0, d := 0, m := 0, n := 0, nif := 0, numEdges := 1
             terminalType := Terminal.nonTerminal
             lowerBound := GameResult.blackWon, upperBound := GameResult.whiteWon } := by
  refine ⟨rfl, ?_⟩
  intro hcontra
  have h0 : lowMakeNotTerminal
      { wl := 0, d := 1, m := 5, n := 0, nif := 0, numEdges := 1
        terminalType := Terminal.endOfGame
        lowerBound := GameResult.draw, upperBound := GameResult.draw } [] = none := rfl
  rw [h0] at hcontra
  exact Option.noConfusion hcontra

/-- C3 amended: on a terminal low node, LowNode::MakeNotTerminal resets
the terminal type to NonTerminal and the bounds to
(BLACK_WON, WHITE_WON) and recomputes N, W, D, M as the visit-weighted
averages over the visited children of the incoming node whenever at
least one child is visited; when the incoming node has no edges the
stats are left at zero; when it has edges but no visited child the
recomputation divides by N = 0 (IEEE NaN, embedded as none), not zeros. -/
theorem lowMakeNotTerminal_amended (s : LowState) (children : List ChildView)
    (hterm : s.terminalType ≠ Terminal.nonTerminal) :
    (0 < s.numEdges → 0 < accN children →
      lowMakeNotTerminal s children =
        some { s with terminalType := Terminal.nonTerminal
                      lowerBound := GameResult.blackWon
                      upperBound := GameResult.whiteWon
                      n := accN children
                      wl := accWL children / (accN children : ℚ)
                      d := accD children / (accN children : ℚ)
                      m := accM children / (accN children : ℚ) }) ∧
    (s.numEdges = 0 →
      lowMakeNotTerminal s children =
        some { s with terminalType := Terminal.nonTerminal
                      lowerBound := GameResult.blackWon
                      upperBound := GameResult.whiteWon
                      n := 0, wl := 0, d := 0, m := 0 }) ∧
    (0 < s.numEdges → accN children = 0 →
      lowMakeNotTerminal s children = none) := by
  refine ⟨fun h1 h2 => ?_, fun h1 => ?_, fun h1 h2 => ?_⟩
  · simp [lowMakeNotTerminal, hterm, h1, Nat.pos_iff_ne_zero.mp h2]
  · simp [lowMakeNotTerminal, hterm, h1]
  · simp [lowMakeNotTerminal, hterm, h1, h2]

/-- Witness for C3 (scenario S3): two visited children, A with n = 3,
wl = 0.4, d = 0.2, m = 10 and B with n = 1, wl = -0.1, d = 0.5, m = 12;
the reverted stats are n = 4, wl = 0.275, d = 0.275, m = 10.5. -/
theorem lowMakeNotTerminal_amended_witness :
    lowMakeNotTerminal
        { wl := 0, d := 1, m := 5, n := 0, nif := 0, numEdges := 2
          terminalType := Terminal.endOfGame
          lowerBound := GameResult.draw, upperBound := GameResult.draw }
        [{ n := 3, wl := 2 / 5, d := 1 / 5, m := 10 },
         { n := 1, wl := -(1 / 10), d := 1 / 2, m := 12 }] =
      some { wl := 11 / 40, d := 11 / 40, m := 21 / 2, n := 4, nif := 0, numEdges := 2
             terminalType := Terminal.nonTerminal
             lowerBound := GameResult.blackWon, upperBound := GameResult.whiteWon } := by
  have h := (lowMakeNotTerminal_amended
    { wl := 0, d := 1, m := 5, n := 0, nif := 0, numEdges := 2
      terminalType := Terminal.endOfGame
      lowerBound := GameResult.draw, upperBound := GameResult.draw }
    [{ n := 3, wl := 2 / 5, d := 1 / 5, m := 10 },
     { n := 1, wl := -(1 / 10), d := 1 / 2, m := 12 }]
    (by decide)).1 (by decide) (by decide)
  rw [h]
  simp only [Option.some.injEq, LowState.mk.injEq, accN, accWL, accD, accM]
  norm_num [List.filter_cons]

/-- C9: the terminal_type enumeration declared at node.h:156 has exactly
the three values NonTerminal, EndOfGame and Tablebase; a TwoFold value
does not exist in the declaration even though node.cc:240, node.cc:294
and node.cc:481 refer to one.  Evidence for the code_bug status. -/
theorem terminal_enum_three_values :
    ∀ t : Terminal, t = Terminal.nonTerminal ∨ t = Terminal.endOfGame ∨ t = Terminal.tablebase := by
  intro t
  cases t
  · exact Or.inl rfl
  · exact Or.inr (Or.inl rfl)
  · exact Or.inr (Or.inr rfl)

/-- The scaled significand of an IEEE-754 binary32 bit pattern is
strictly monotone in the pattern: a larger biased exponent, or an equal
exponent with a larger mantissa, gives a strictly larger value. -/
theorem floatSig_strictMono {x y : ℕ} (h : x < y) : floatSig x < floatSig y := by
  have hmx : x % 2 ^ 23 < 2 ^ 23 := Nat.mod_lt _ (by norm_num)
  have hmy : y % 2 ^ 23 < 2 ^ 23 := Nat.mod_lt _ (by norm_num)
  have hdx := Nat.div_add_mod x (2 ^ 23)
  have hdy := Nat.div_add_mod y (2 ^ 23)
  have hde : x / 2 ^ 23 ≤ y / 2 ^ 23 := Nat.div_le_div_right h.le
  rw [floatSig, floatSig]
  by_cases hex : x / 2 ^ 23 = 0
  · rw [if_pos hex]
    by_cases hey : y / 2 ^ 23 = 0
    · rw [if_pos hey]
      omega
    · rw [if_neg hey]
      have h1 : (2 : ℕ) ^ 23 ≤ (2 ^ 23 + y % 2 ^ 23) * 2 ^ (y / 2 ^ 23 - 1) := by
        calc (2 : ℕ) ^ 23 = 2 ^ 23 * 1 := (Nat.mul_one _).symm
          _ ≤ (2 ^ 23 + y % 2 ^ 23) * 2 ^ (y / 2 ^ 23 - 1) :=
            Nat.mul_le_mul (Nat.le_add_right _ _) Nat.one_le_two_pow
      omega
  · have hey : ¬ y / 2 ^ 23 = 0 := by omega
    rw [if_neg hex, if_neg hey]
    by_cases heq : x / 2 ^ 23 = y / 2 ^ 23
    · rw [heq]
      exact (Nat.mul_lt_mul_right (pow_pos (by norm_num) _)).mpr (by omega)
    · have hlt : x / 2 ^ 23 < y / 2 ^ 23 := by omega
      calc (2 ^ 23 + x % 2 ^ 23) * 2 ^ (x / 2 ^ 23 - 1)
          < 2 ^ 24 * 2 ^ (x / 2 ^ 23 - 1) :=
            (Nat.mul_lt_mul_right (pow_pos (by norm_num) _)).mpr (by omega)
        _ = 2 ^ (24 + (x / 2 ^ 23 - 1)) := by rw [pow_add]
        _ ≤ 2 ^ (23 + (y / 2 ^ 23 - 1)) := Nat.pow_le_pow_right (by norm_num) (by omega)
        _ = 2 ^ 23 * 2 ^ (y / 2 ^ 23 - 1) := pow_add 2 _ _
        _ ≤ (2 ^ 23 + y % 2 ^ 23) * 2 ^ (y / 2 ^ 23 - 1) :=
            Nat.mul_le_mul_right _ (Nat.le_add_right _ _)

/-- Value order of bit patterns equals order of scaled significands. -/
theorem floatValBits_le_iff {x y : ℕ} :
    floatValBits x ≤ floatValBits y ↔ floatSig x ≤ floatSig y := by
  rw [floatValBits, floatValBits, div_le_div_iff_of_pos_right (by positivity)]
  exact Nat.cast_le

/-- The bit pattern 0x3F800000 is the float 1.0. -/
theorem floatValBits_one : floatValBits 0x3F800000 = 1 := by
  have hs : floatSig 0x3F800000 = 2 ^ 149 := by decide
  rw [floatValBits, hs]
  push_cast
  norm_num

/-- Value order implies pattern order for nonnegative patterns. -/
theorem pattern_le_of_val_le {x y : ℕ} (h : floatValBits x ≤ floatValBits y) : x ≤ y := by
  by_contra hc
  push_neg at hc
  have hlt := floatSig_strictMono hc
  have hle := floatValBits_le_iff.mp h
  omega

/-- A pattern whose value is at most 1 lies at or below the pattern of
1.0. -/
theorem pattern_le_one_bits {y : ℕ} (h : floatValBits y ≤ 1) : y ≤ 0x3F800000 := by
  by_contra hc
  push_neg at hc
  have hlt := floatSig_strictMono hc
  have hs : floatSig 0x3F800000 = 2 ^ 149 := by decide
  have h3 : (1 : ℚ) < floatValBits y := by
    rw [floatValBits, one_lt_div (by positivity)]
    exact_mod_cast hs ▸ hlt
  linarith

/-- SetP is monotone in the bit pattern on patterns up to that of 1.0:
the bias addition preserves order, the negative clamp sends any smaller
input to 0, the shift is a monotone division, and within this range the
low 16 bits are the whole shifted value. -/
theorem setP_mono_of_pattern_le {x y : ℕ} (hxy : x ≤ y) (hy : y ≤ 0x3F800000) :
    setP x ≤ setP y := by
  rw [setP, setP]
  by_cases hx0 : ((x : ℤ) + ((2 ^ 11 : ℤ) - 3 * 2 ^ 28)) < 0
  · rw [if_pos hx0]
    exact Nat.zero_le _
  · have hy0 : ¬ ((y : ℤ) + ((2 ^ 11 : ℤ) - 3 * 2 ^ 28)) < 0 := by omega
    rw [if_neg hx0, if_neg hy0]
    have hab : ((x : ℤ) + ((2 ^ 11 : ℤ) - 3 * 2 ^ 28)).toNat ≤
        ((y : ℤ) + ((2 ^ 11 : ℤ) - 3 * 2 ^ 28)).toNat := by omega
    have hbd : ((y : ℤ) + ((2 ^ 11 : ℤ) - 3 * 2 ^ 28)).toNat / 2 ^ 12 < 2 ^ 16 :=
      Nat.div_lt_of_lt_mul (by omega)
    have had : ((x : ℤ) + ((2 ^ 11 : ℤ) - 3 * 2 ^ 28)).toNat / 2 ^ 12 < 2 ^ 16 :=
      Nat.div_lt_of_lt_mul (by omega)
    rw [Nat.mod_eq_of_lt had, Nat.mod_eq_of_lt hbd]
    exact Nat.div_le_div_right hab

/-- C4: the policy codec is monotone.  For priors a and b in [0, 1],
given as nonnegative binary32 bit patterns x and y (sign bit clear,
value at most 1), a <= b implies Encode(a) <= Encode(b) as 16-bit
codes. -/
theorem setP_monotone (x y : ℕ) (_hx : x < 2 ^ 31) (_hy : y < 2 ^ 31)
    (hy1 : floatValBits y ≤ 1) (hxy : floatValBits x ≤ floatValBits y) :
    setP x ≤ setP y :=
  setP_mono_of_pattern_le (pattern_le_of_val_le hxy) (pattern_le_one_bits hy1)

/-- Witness for C4 at the patterns of 0.5 and 1.0. -/
theorem setP_monotone_witness :
    (0x3F000000 : ℕ) < 2 ^ 31 ∧ (0x3F800000 : ℕ) < 2 ^ 31 ∧
    floatValBits 0x3F800000 ≤ 1 ∧
    floatValBits 0x3F000000 ≤ floatValBits 0x3F800000 ∧
    setP 0x3F000000 ≤ setP 0x3F800000 :=
  ⟨by norm_num, by norm_num, le_of_eq floatValBits_one,
   floatValBits_le_iff.mpr (by decide),
   setP_monotone 0x3F000000 0x3F800000 (by norm_num) (by norm_num)
     (le_of_eq floatValBits_one) (floatValBits_le_iff.mpr (by decide))⟩

/-- C5 counterexample: Encode(1.0) (bit pattern 0x3F800000, which has
value 1) returns code 0xF800, which is not 0xF000 plus or minus one; and
decoding code 0 yields the bit pattern 0x30000000, whose value 2^(-31)
is not 0. -/
theorem codec_boundary_counterexample :
    floatValBits 0x3F800000 = 1 ∧
    setP 0x3F800000 = 0xF800 ∧
    ¬ (0xEFFF ≤ setP 0x3F800000 ∧ setP 0x3F800000 ≤ 0xF001) ∧
    floatValBits (getP 0) ≠ 0 := by
  refine ⟨floatValBits_one, by decide, by decide, ?_⟩
  have hg : getP 0 = 0x30000000 := by decide
  have hs : floatSig 0x30000000 = 2 ^ 118 := by decide
  rw [hg, floatValBits, hs]
  positivity

/-- C5 amended: Encode(0.0) returns code 0; decoding code 0 yields the
bit pattern 0x30000000 of value 2^(-31) (about 4.66e-10), the smallest
decodable value, not 0; Encode(1.0) returns code 0xF800, which decodes
back to exactly 1.0. -/
theorem codec_boundary_amended :
    floatValBits 0 = 0 ∧ setP 0 = 0 ∧
    getP 0 = 0x30000000 ∧ floatValBits (getP 0) = 1 / 2 ^ 31 ∧
    floatValBits 0x3F800000 = 1 ∧ setP 0x3F800000 = 0xF800 ∧
    getP (setP 0x3F800000) = 0x3F800000 := by
  have hg : getP 0 = 0x30000000 := by decide
  have hs : floatSig 0x30000000 = 2 ^ 118 := by decide
  have h0 : floatSig 0 = 0 := by decide
  refine ⟨?_, by decide, hg, ?_, floatValBits_one, by decide, by decide⟩
  · rw [floatValBits, h0]
    norm_num
  · rw [hg, floatValBits, hs]
    push_cast
    rw [div_eq_div_iff (by positivity) (by positivity)]
    norm_num

/-- Bridge lemma: vRest is exactly the iteration of vAdvance, one yield
per stop of operator++. -/
theorem vRest_eq_vAdvance (l : List VNode) :
    vRest l = (match vAdvance l with
               | none => []
               | some (c, rest) => c :: vRest rest) := by
  induction l with
  | nil => rfl
  | cons c rest ih =>
    by_cases h1 : c.n = 0 ∧ c.nif = 0
    · simp [vRest, vAdvance, h1]
    · by_cases h2 : c.n = 0
      · have hnif : ¬ c.nif = 0 := fun hf => h1 ⟨h2, hf⟩
        simpa [vRest, vAdvance, h1, h2, hnif] using ih
      · simp [vRest, vAdvance, h1, h2]

/-- Every node collected by vRest has a positive visit count. -/
theorem vRest_mem_pos (l : List VNode) : ∀ x ∈ vRest l, 0 < x.n := by
  induction l with
  | nil => simp [vRest]
  | cons c rest ih =>
    by_cases h1 : c.n = 0 ∧ c.nif = 0
    · simp [vRest, h1]
    · by_cases h2 : c.n = 0
      · have hnif : ¬ c.nif = 0 := fun hf => h1 ⟨h2, hf⟩
        simpa [vRest, h1, h2, hnif] using ih
      · intro x hx
        rw [vRest, if_neg h1, if_neg h2] at hx
        rcases List.mem_cons.mp hx with hx | hx
        · subst hx; omega
        · exact ih x hx

/-- Iteration by vRest never looks past a node with n == 0 and
n_in_flight == 0: the chain after such a node is irrelevant. -/
theorem vRest_stop (t1 t2 : List VNode) (c : VNode) (hc : c.n = 0) (hcf : c.nif = 0) :
    vRest (t1 ++ c :: t2) = vRest (t1 ++ [c]) := by
  induction t1 with
  | nil => simp [vRest, hc, hcf]
  | cons a t1 ih =>
    by_cases h1 : a.n = 0 ∧ a.nif = 0
    · simp [vRest, h1]
    · by_cases h2 : a.n = 0
      · have hnif : ¬ a.nif = 0 := fun hf => h1 ⟨h2, hf⟩
        simpa [vRest, h1, h2, hnif] using ih
      · simpa [vRest, h1, h2] using ih

/-- C8 amended: VisitedNodes yields only nodes with N > 0, and a node
with N == 0 and n_in_flight == 0 encountered by operator++ (that is, at
any position after the first child) ends the iteration, so the chain
past it is never inspected; a first child with N == 0 is merely stepped
over by the range constructor without consulting its in-flight count,
so nodes after it can still be yielded. -/
theorem visitedNodes_amended (h : VNode) (t1 t2 : List VNode) (c : VNode)
    (hc : c.n = 0) (hcf : c.nif = 0) :
    (∀ x ∈ visitedNodes (h :: (t1 ++ c :: t2)), 0 < x.n) ∧
    visitedNodes (h :: (t1 ++ c :: t2)) = visitedNodes (h :: (t1 ++ [c])) := by
  constructor
  · intro x hx
    rw [visitedNodes] at hx
    by_cases hh : h.n = 0
    · rw [if_pos hh] at hx
      exact vRest_mem_pos _ x hx
    · rw [if_neg hh] at hx
      rcases List.mem_cons.mp hx with hx | hx
      · subst hx; omega
      · exact vRest_mem_pos _ x hx
  · rw [visitedNodes, visitedNodes, vRest_stop t1 t2 c hc hcf]

/-- Witness for C8 at a concrete chain: a visited head, a visited
second node, a stopping node with n = 0 and n_in_flight = 0, and a
trailing visited node that is never reached. -/
theorem visitedNodes_amended_witness :
    (∀ x ∈ visitedNodes [{ n := 2, nif := 0 }, { n := 5, nif := 1 },
        { n := 0, nif := 0 }, { n := 9, nif := 0 }], 0 < x.n) ∧
    visitedNodes [{ n := 2, nif := 0 }, { n := 5, nif := 1 },
        { n := 0, nif := 0 }, { n := 9, nif := 0 }] =
      visitedNodes [{ n := 2, nif := 0 }, { n := 5, nif := 1 }, { n := 0, nif := 0 }] :=
  visitedNodes_amended { n := 2, nif := 0 } [{ n := 5, nif := 1 }]
    [{ n := 9, nif := 0 }] { n := 0, nif := 0 } rfl rfl

/-- C8 counterexample: a first child with n == 0 and n_in_flight == 0
followed by a visited child.  The claim predicts the iteration ends at
the first child with nothing yielded; the range constructor instead
steps over it and the second child is yielded. -/
theorem visitedNodes_counterexample :
    visitedNodes [{ n := 0, nif := 0 }, { n := 7, nif := 0 }] = [{ n := 7, nif := 0 }] ∧
    visitedNodes [{ n := 0, nif := 0 }, { n := 7, nif := 0 }] ≠ [] := by
  decide

/-- Reduction of the data accessor on a constructed node. -/
theorem GNode.data_mk (d : NodeData) (cs : List GNode) : (GNode.mk d cs).data = d := rfl

/-- Reduction of the children accessor on a constructed node. -/
theorem GNode.children_mk (d : NodeData) (cs : List GNode) :
    (GNode.mk d cs).children = cs := rfl

/-- Helper: splitAtIndex finds nothing when no child carries index i. -/
theorem splitAtIndex_eq_none (children : List GNode) (i : ℕ)
    (h : ∀ c ∈ children, c.data.index ≠ i) : splitAtIndex children i = none := by
  induction children with
  | nil => rfl
  | cons c cs ih =>
    have hc : ¬ c.data.index = i := h c (List.mem_cons_self c cs)
    rw [splitAtIndex, if_neg hc, ih fun x hx => h x (List.mem_cons_of_mem c hx)]

/-- C10: LowNode::ReleaseChildrenExceptOne with a node to save that is
null or not among the materialized children detaches every child to the
reclamation queue and leaves the child list empty. -/
theorem releaseChildrenExceptOne_none_spec (children : List GNode) (save : Option ℕ)
    (h : save = none ∨ ∃ i, save = some i ∧ ∀ c ∈ children, c.data.index ≠ i) :
    (releaseChildrenExceptOne children save).1 = [] ∧
    ((releaseChildrenExceptOne children save).2).flatten = children := by
  have hgc : (addToGcQueue [] children).flatten = children := by
    rw [addToGcQueue]
    by_cases hc : children.isEmpty
    · simp [if_pos hc, List.isEmpty_iff.mp hc]
    · simp [if_neg hc]
  rcases h with rfl | ⟨i, rfl, hi⟩
  · exact ⟨rfl, hgc⟩
  · rw [releaseChildrenExceptOne, splitAtIndex_eq_none children i hi]
    exact ⟨rfl, hgc⟩

/-- Witness for C10: one child at index 0, node to save has index 5. -/
theorem releaseChildrenExceptOne_none_spec_witness :
    (releaseChildrenExceptOne [freshNode 0] (some 5)).1 = [] ∧
    ((releaseChildrenExceptOne [freshNode 0] (some 5)).2).flatten = [freshNode 0] :=
  releaseChildrenExceptOne_none_spec [freshNode 0] (some 5)
    (Or.inr ⟨5, rfl, by decide⟩)

/-- Helper: GetOrSpawnNode leaves the child list unchanged when a child
with the wanted index is present (the chain before it having smaller
indices, per the ascending order invariant). -/
theorem getOrSpawnChild_found (pre suf : List GNode) (c : GNode) (i : ℕ)
    (hpre : ∀ x ∈ pre, x.data.index < i) (hc : c.data.index = i) :
    getOrSpawnChild (pre ++ c :: suf) i = pre ++ c :: suf := by
  induction pre with
  | nil => simp [getOrSpawnChild, hc]
  | cons a pre ih =>
    have ha : a.data.index < i := hpre a (List.mem_cons_self a pre)
    rw [List.cons_append, getOrSpawnChild, if_pos ha,
      ih fun x hx => hpre x (List.mem_cons_of_mem a hx)]

/-- Helper: splitAtIndex locates the child with index i when the chain
before it has smaller indices. -/
theorem splitAtIndex_found (pre suf : List GNode) (c : GNode) (i : ℕ)
    (hpre : ∀ x ∈ pre, x.data.index < i) (hc : c.data.index = i) :
    splitAtIndex (pre ++ c :: suf) i = some (pre, c, suf) := by
  induction pre with
  | nil => simp [splitAtIndex, hc]
  | cons a pre ih =>
    have ha : ¬ a.data.index = i := by
      have := hpre a (List.mem_cons_self a pre)
      omega
    rw [List.cons_append, splitAtIndex, if_neg ha,
      ih fun x hx => hpre x (List.mem_cons_of_mem a hx)]

/-- Helper: node counts add up over chain concatenation. -/
theorem countChain_append (l1 l2 : List GNode) :
    countChain (l1 ++ l2) = countChain l1 + countChain l2 := by
  induction l1 with
  | nil => simp [countChain]
  | cons c l1 ih => rw [List.cons_append, countChain, countChain, ih]; omega

/-- C7 amended: MakeMove on a move matching the edge at index i whose
materialized child is not terminal re-roots onto that child: the child,
with its entire subtree, becomes the new current head bit-identically,
the old head keeps it as its only child, the two sibling chains around
it are handed to the garbage collection queue, and the node count of
the old head subtree drops by exactly the total node count of the other
children.  (A terminal chosen child is first rewritten by
Node::MakeNotTerminal, which is why the claim needs the non-terminal
proviso.) -/
theorem makeMove_amended (hd : NodeData) (pre suf : List GNode) (c : GNode) (i : ℕ)
    (hpre : ∀ x ∈ pre, x.data.index < i) (hc : c.data.index = i)
    (hterm : c.data.terminalType = Terminal.nonTerminal) :
    makeMove (GNode.mk hd (pre ++ c :: suf)) i =
      some (c, GNode.mk hd [c], addToGcQueue (addToGcQueue [] suf) pre) ∧
    GNode.count (GNode.mk hd [c]) + countChain pre + countChain suf =
      GNode.count (GNode.mk hd (pre ++ c :: suf)) := by
  constructor
  · rw [makeMove]
    rw [GNode.children_mk, getOrSpawnChild_found pre suf c i hpre hc,
      splitAtIndex_found pre suf c i hpre hc]
    simp [hterm, releaseChildrenExceptOne, splitAtIndex_found pre suf c i hpre hc,
      GNode.data_mk]
  · rw [GNode.count, GNode.count, countChain_append, countChain, countChain, countChain]
    omega

/-- Witness for C7: head with three children at indices 0, 1, 5; the
move matches index 1, a non-terminal child with one grandchild. -/
theorem makeMove_amended_witness :
    makeMove (GNode.mk exHeadData
        ([freshNode 0] ++ GNode.mk exChildData [freshNode 2] :: [freshNode 5])) 1 =
      some (GNode.mk exChildData [freshNode 2],
            GNode.mk exHeadData [GNode.mk exChildData [freshNode 2]],
            addToGcQueue (addToGcQueue [] [freshNode 5]) [freshNode 0]) ∧
    GNode.count (GNode.mk exHeadData [GNode.mk exChildData [freshNode 2]]) +
      countChain [freshNode 0] + countChain [freshNode 5] =
      GNode.count (GNode.mk exHeadData
        ([freshNode 0] ++ GNode.mk exChildData [freshNode 2] :: [freshNode 5])) :=
  makeMove_amended exHeadData [freshNode 0] [freshNode 5]
    (GNode.mk exChildData [freshNode 2]) 1 (by decide) rfl rfl

/-- C7 counterexample: MakeMove onto a terminal child rewrites the new
head stats from its low node (Node::MakeNotTerminal at node.cc:576), so
the chosen child subtree is not preserved bit-identically: the chosen
child had wl = 1 but the new current head has wl = -3/10. -/
theorem makeMove_counterexample :
    ((makeMove (GNode.mk exHeadData [termChild]) 0).map fun r => r.1.data.stats.wl) =
      some (-(3 / 10 : ℚ)) ∧
    termChild.data.stats.wl = 1 ∧
    ((makeMove (GNode.mk exHeadData [termChild]) 0).map fun r => r.1.data.stats.wl) ≠
      some termChild.data.stats.wl := by
  have h1 : ((makeMove (GNode.mk exHeadData [termChild]) 0).map
      fun r => r.1.data.stats.wl) = some (-(3 / 10 : ℚ)) := rfl
  have h2 : termChild.data.stats.wl = (1 : ℚ) := rfl
  refine ⟨h1, h2, ?_⟩
  rw [h1, h2]
  simp only [ne_eq, Option.some.injEq]
  norm_num

end Lc0
